import Mathlib

/-!
Verification of the daedalus dungeon library.

Shallow embedding of the daedalus 2D dungeon generator
(`array_2D.hpp`, `dungeon.hpp`, `dungeon.cpp`) and proofs about it.

The repository ships the class declarations together with one implemented
member function, `RogueDungeon::generate_random_dungeon` (in `dungeon.cpp`).
That function is embedded directly from its source.  The remaining members
(`Array_2D`'s constructor and accessors, `Dungeon::set_tile`,
`Dungeon::set_entrance` / `set_exit`, `Dungeon::is_wall` / `is_exit`,
`Dungeon::find_path_djikstra`, `Dungeon::get_hot_path_djikstra`) are declared
but have no implementation in the repository; those are modelled from the
specification, as marked on each definition.
-/

namespace daedalus

/-- Tile value `WALL = 0` of the `DungeonTile` enumeration, stored as the
raw `std::uint8_t` code the C++ enum uses. -/
def WALL : Nat := 0

/-- Tile value `DungeonTile::FLOOR = 1`. -/
def FLOOR : Nat := 1

/-- Tile value `DungeonTile::ENTRANCE = 2`. -/
def ENTRANCE : Nat := 2

/-- Tile value `DungeonTile::EXIT = 3`. -/
def EXIT : Nat := 3

/-- Error taxonomy of the specification (§7).  Only the conditions the
grid accessors and mutators can raise are needed here. -/
inductive DungeonError where
  | OutOfBounds : DungeonError
  | UnsupportedMethod : DungeonError
deriving DecidableEq, Repr

/-- The `Array_2D<std::uint8_t>` container: a row-major dense 2D container backed by a
single linear store (`rows_`, `cols_`, `data_` in `array_2D.hpp`).
Cell values are the `uint8_t` tile codes. -/
structure Array_2D where
  rows : Nat
  cols : Nat
  data : List Nat
deriving DecidableEq, Repr

/-- Modelled from the spec: `Array_2D`'s constructor is declared in
`array_2D.hpp` but not implemented in the repository; §4.1 says
`construct(rows, cols)` allocates `rows*cols` default-valued elements
(default `uint8_t` value `0 = WALL`). -/
def Array_2D.make (rows cols : Nat) : Array_2D :=
  ⟨rows, cols, List.replicate (rows * cols) 0⟩

/-- Modelled from the spec: `Array_2D::operator()` is declared but not
implemented; §4.1 says access fails with `OutOfBounds` if
`i >= rows || j >= cols`, and §3 maps `(row, col)` to `row*cols + col`. -/
def Array_2D.at (a : Array_2D) (i j : Nat) : Except DungeonError Nat :=
  if i < a.rows ∧ j < a.cols then
    .ok (a.data.getD (i * a.cols + j) 0)
  else
    .error .OutOfBounds

/-- Unchecked row-major write into the backing store (the write that a
checked mutation performs after its bounds test; `List.set` out of range is
a no-op, which the bounds test rules out). -/
def Array_2D.setCell (a : Array_2D) (i j v : Nat) : Array_2D :=
  ⟨a.rows, a.cols, a.data.set (i * a.cols + j) v⟩

/-- Row-major read used internally once bounds are known. -/
def Array_2D.cell (a : Array_2D) (i j : Nat) : Nat :=
  a.data.getD (i * a.cols + j) 0

/-- The `Dungeon` class of `dungeon.hpp`: an `Array_2D<uint8_t>` of tiles,
the entrance and exit positions, the stored seed and the random stream
state (`std::mt19937`, abstracted to its seed since no implemented code
draws from it).  The entrance/exit positions are modelled from the spec as
optional (§3: "both optional/unset until a generator assigns them"); the
C++ declaration holds plain `std::tuple<std::size_t, std::size_t>` members
which the constructor leaves value-initialized. -/
structure Dungeon where
  tiles : Array_2D
  entrance_pos : Option (Nat × Nat)
  exit_pos : Option (Nat × Nat)
  seed : Nat
  rng : Nat
deriving DecidableEq, Repr

/-- The `Dungeon(rows, cols, seed)` constructor (inline in `dungeon.hpp`,
lines 59–63): builds `tiles_(rows, cols)`, stores `seed_ = seed`, and seeds
`rng_` from `seed`.  The tile initialization goes through `Array_2D.make`,
which is modelled from the spec. -/
def Dungeon.make (rows cols seed : Nat) : Dungeon :=
  ⟨Array_2D.make rows cols, none, none, seed, seed⟩

/-- Accessor `Dungeon::rows()`. -/
def Dungeon.rows (d : Dungeon) : Nat := d.tiles.rows

/-- Accessor `Dungeon::cols()`. -/
def Dungeon.cols (d : Dungeon) : Nat := d.tiles.cols

/-- Bounds-checked tile read `Dungeon::operator()(i, j)` (declared but not
implemented; modelled from the spec, §4.2: `tile_at(i,j)` is bounds-checked
as in §4.1 and returns the tile kind). -/
def Dungeon.tile_at (d : Dungeon) (i j : Nat) : Except DungeonError Nat :=
  d.tiles.at i j

/-- Modelled from the spec: the clearing step of `Dungeon::set_tile`
(§4.2: "if `kind==Entrance`, any previously stored entrance cell is reset
to Floor before the new one is set (same rule for Exit)"). -/
def Dungeon.clearKind (d : Dungeon) (tile : Nat) : Dungeon :=
  if tile = ENTRANCE then
    match d.entrance_pos with
    | some p => ⟨d.tiles.setCell p.1 p.2 FLOOR, none, d.exit_pos, d.seed, d.rng⟩
    | none => d
  else if tile = EXIT then
    match d.exit_pos with
    | some p => ⟨d.tiles.setCell p.1 p.2 FLOOR, d.entrance_pos, none, d.seed, d.rng⟩
    | none => d
  else d

/-- Modelled from the spec: `Dungeon::set_tile(i, j, tile)` is declared but
not implemented; §4.2 describes it as a bounds-checked mutation that first
applies the entrance/exit clearing rule, then stores the tile, recording
the new entrance/exit position when the tile is one of those kinds. -/
def Dungeon.set_tile (d : Dungeon) (i j tile : Nat) : Except DungeonError Dungeon :=
  if i < d.rows ∧ j < d.cols then
    let d1 := d.clearKind tile
    let t2 := d1.tiles.setCell i j tile
    if tile = ENTRANCE then
      .ok ⟨t2, some (i, j), d1.exit_pos, d1.seed, d1.rng⟩
    else if tile = EXIT then
      .ok ⟨t2, d1.entrance_pos, some (i, j), d1.seed, d1.rng⟩
    else
      .ok ⟨t2, d1.entrance_pos, d1.exit_pos, d1.seed, d1.rng⟩
  else
    .error .OutOfBounds

/-- Modelled from the spec: `Dungeon::set_entrance(i, j)` is a convenience
wrapper over `set_tile` (§4.2). -/
def Dungeon.set_entrance (d : Dungeon) (i j : Nat) : Except DungeonError Dungeon :=
  d.set_tile i j ENTRANCE

/-- Modelled from the spec: `Dungeon::set_exit(i, j)` is a convenience
wrapper over `set_tile` (§4.2). -/
def Dungeon.set_exit (d : Dungeon) (i j : Nat) : Except DungeonError Dungeon :=
  d.set_tile i j EXIT

/-- Modelled from the spec: `Dungeon::is_wall(i, j)` is a derived boolean
query over the bounds-checked tile read (§4.2, with §8's bounds rule:
out-of-range coordinates fail with `OutOfBounds`). -/
def Dungeon.is_wall (d : Dungeon) (i j : Nat) : Except DungeonError Bool :=
  (d.tile_at i j).map (fun t => t = WALL)

/-- Modelled from the spec: `Dungeon::is_exit(i, j)`, as `is_wall`. -/
def Dungeon.is_exit (d : Dungeon) (i j : Nat) : Except DungeonError Bool :=
  (d.tile_at i j).map (fun t => t = EXIT)

/-- The `RogueDungeon` class (derived from `Dungeon`; adds no data
members). -/
structure RogueDungeon where
  toDungeon : Dungeon
deriving DecidableEq, Repr

/-- The member function `RogueDungeon::generate_random_dungeon(method)`, embedded from
`dungeon.cpp` lines 8–27.  `method` carries the underlying `int` value of
the scoped enum `DungeonGenerationMethod` (`NAIVE = 0` … `PERLIN_NOISE = 5`).
The `NAIVE` case contains only comments and `break`s; the `BSP` through
`PERLIN_NOISE` cases write `"Method not implemented yet"` to `std::cerr`;
the `default` case writes `"Method not available for this kind of dungeon"`.
The second component collects the `std::cerr` lines; the function returns
`void` and throws nothing, so the model has no error channel. -/
def RogueDungeon.generate_random_dungeon (d : RogueDungeon) (method : Int) :
    RogueDungeon × List String :=
  if method = 0 then
    (d, [])
  else if method = 1 ∨ method = 2 ∨ method = 3 ∨ method = 4 ∨ method = 5 then
    (d, ["Method not implemented yet"])
  else
    (d, ["Method not available for this kind of dungeon"])

/-- Constructor `RogueDungeon(rows, cols)`: delegates to the base constructor.  The seed
defaults to a time-derived value in the header; the claims about
construction fix the seed explicitly, so it is a parameter here. -/
def RogueDungeon.make (rows cols seed : Nat) : RogueDungeon :=
  ⟨Dungeon.make rows cols seed⟩

/-- Number of cells of the grid holding tile value `t`. -/
def countKind (a : Array_2D) (t : Nat) : Nat :=
  a.data.countP (fun c => decide (c = t))

/-! ## Pathfinder

`Dungeon::find_path_djikstra` and `Dungeon::get_hot_path_djikstra` are
declared in `dungeon.hpp` but not implemented in the repository.  The
search below is modelled from the spec, §4.3: classic Dijkstra over the
4-connected grid, walkable iff tile kind ≠ Wall, unit cost per move, a
frontier priority queue keyed by accumulated distance, a visited set and a
predecessor map, stopping early when the goal is popped; `found = false`
with an empty path when the start or goal is non-walkable or no route
exists.  The C++ splits the result into a `bool` plus a cached path; here
the search returns the pair directly. -/

/-- Walkability predicate of §4.3 / §4.2: the coordinate is inside the grid
and its tile kind is not Wall. -/
def walkableB (a : Array_2D) (p : Nat × Nat) : Bool :=
  decide (p.1 < a.rows ∧ p.2 < a.cols ∧ a.cell p.1 p.2 ≠ WALL)

/-- 4-connected neighbourhood of a grid coordinate (the two guards keep
`Nat` subtraction from wrapping at the top and left edges; out-of-grid
candidates are rejected by the walkability test). -/
def neighbors (p : Nat × Nat) : List (Nat × Nat) :=
  (if 0 < p.1 then [(p.1 - 1, p.2)] else []) ++ [(p.1 + 1, p.2)] ++
    (if 0 < p.2 then [(p.1, p.2 - 1)] else []) ++ [(p.1, p.2 + 1)]

/-- Two coordinates are 4-adjacent: equal in one axis, off by one in the
other. -/
def adjacentB (p q : Nat × Nat) : Bool :=
  decide ((p.1 = q.1 ∧ (p.2 = q.2 + 1 ∨ q.2 = p.2 + 1)) ∨
    (p.2 = q.2 ∧ (p.1 = q.1 + 1 ∨ q.1 = p.1 + 1)))

/-- State of the Dijkstra loop: the frontier priority queue (cell paired
with its accumulated distance), the visited set, and the predecessor map
(most recent entry first). -/
structure SearchState where
  frontier : List ((Nat × Nat) × Nat)
  visited : List (Nat × Nat)
  pred : List ((Nat × Nat) × (Nat × Nat))
deriving Repr

/-- Cells currently on the frontier. -/
def SearchState.cells (s : SearchState) : List (Nat × Nat) :=
  s.frontier.map Prod.fst

/-- Pop a minimum-distance entry from the frontier (the priority-queue
extraction; ties broken deterministically towards the earlier entry). -/
def popMin : List ((Nat × Nat) × Nat) →
    Option (((Nat × Nat) × Nat) × List ((Nat × Nat) × Nat))
  | [] => none
  | e :: es =>
    match popMin es with
    | none => some (e, [])
    | some (m, rest) => if e.2 ≤ m.2 then some (e, es) else some (m, e :: rest)

/-- Predecessor lookup (first matching entry). -/
def lookupPred (pred : List ((Nat × Nat) × (Nat × Nat))) (v : Nat × Nat) :
    Option (Nat × Nat) :=
  (pred.find? (fun e => decide (e.1 = v))).map Prod.snd

/-- Reconstruct the start-to-`v` path by walking the predecessor map, with
fuel bounding the walk. -/
def buildPath (pred : List ((Nat × Nat) × (Nat × Nat))) (start : Nat × Nat) :
    Nat × Nat → Nat → Option (List (Nat × Nat))
  | _, 0 => none
  | v, fuel + 1 =>
    if v = start then some [start]
    else
      match lookupPred pred v with
      | none => none
      | some u => (buildPath pred start u fuel).map (fun l => l ++ [v])

/-- Relaxation of one neighbour `v` of the just-popped cell `u` at distance
`du`: a walkable neighbour not yet visited and not yet on the frontier is
enqueued at distance `du + 1` and recorded in the predecessor map. -/
def stepRelax (a : Array_2D) (u : Nat × Nat) (du : Nat) (s : SearchState)
    (v : Nat × Nat) : SearchState :=
  if walkableB a v = true ∧ v ∉ s.visited ∧ v ∉ s.cells then
    ⟨s.frontier ++ [(v, du + 1)], s.visited, (v, u) :: s.pred⟩
  else s

/-- Relax every neighbour of the popped cell. -/
def relax (a : Array_2D) (u : Nat × Nat) (du : Nat) (s : SearchState) :
    SearchState :=
  (neighbors u).foldl (stepRelax a u du) s

/-- The Dijkstra main loop: pop a minimum-distance frontier entry; if it is
the goal, reconstruct and return the path; otherwise mark it visited and
relax its neighbours.  An empty frontier means no route.  `none` flags fuel
exhaustion, which the correctness proofs rule out for the fuel chosen by
`find_path_core`. -/
def djikstraLoop (a : Array_2D) (start goal : Nat × Nat) :
    Nat → SearchState → Option (Bool × List (Nat × Nat))
  | 0, _ => none
  | fuel + 1, s =>
    match popMin s.frontier with
    | none => some (false, [])
    | some ((u, du), rest) =>
      if u = goal then
        some (true, (buildPath s.pred start u (s.pred.length + 1)).getD [])
      else
        djikstraLoop a start goal fuel
          (relax a u du ⟨rest, u :: s.visited, s.pred⟩)

/-- Entry point `shortest_path` of §4.3: fails fast (`found = false`, empty path) when
the start or goal is non-walkable, otherwise runs the Dijkstra loop from
the start at distance 0 with enough fuel for every cell of the grid. -/
def find_path_core (a : Array_2D) (start goal : Nat × Nat) :
    Bool × List (Nat × Nat) :=
  if walkableB a start = true ∧ walkableB a goal = true then
    match djikstraLoop a start goal (a.rows * a.cols + 1) ⟨[(start, 0)], [], []⟩ with
    | some r => r
    | none => (false, [])
  else (false, [])

/-- Member `Dungeon::find_path_djikstra` (with `get_hot_path_djikstra`), modelled from
the spec (§4.2–§4.3): the search runs between the model's own entrance and
exit; with either endpoint unset there is nothing to search. -/
def Dungeon.find_path_djikstra (d : Dungeon) : Bool × List (Nat × Nat) :=
  match d.entrance_pos, d.exit_pos with
  | some e, some x => find_path_core d.tiles e x
  | _, _ => (false, [])

/-- Boolean check that consecutive list entries are 4-adjacent (the
executable mirror of `List.Chain'` over `adjacentB`). -/
def chainAdjB : List (Nat × Nat) → Bool
  | [] => true
  | [_] => true
  | p :: q :: t => adjacentB p q && chainAdjB (q :: t)

/-- A valid walkable path: nonempty, from `s` to `g`, every cell walkable,
consecutive cells 4-adjacent. -/
def IsPath (a : Array_2D) (l : List (Nat × Nat)) (s g : Nat × Nat) : Prop :=
  l ≠ [] ∧ l.head? = some s ∧ l.getLast? = some g ∧
    (∀ p ∈ l, walkableB a p = true) ∧ chainAdjB l = true

instance (a : Array_2D) (l : List (Nat × Nat)) (s g : Nat × Nat) :
    Decidable (IsPath a l s g) :=
  inferInstanceAs (Decidable (l ≠ [] ∧ l.head? = some s ∧ l.getLast? = some g ∧
    (∀ p ∈ l, walkableB a p = true) ∧ chainAdjB l = true))

/-- Distance along one axis (truncated-subtraction form, so `omega` can
reason about it). -/
def axisDist (x y : Nat) : Nat := (x - y) + (y - x)

/-- Manhattan distance between two grid coordinates. -/
def manhattan (p q : Nat × Nat) : Nat :=
  axisDist p.1 q.1 + axisDist p.2 q.2

/-- Well-formedness for the single-entrance argument: the backing store has
the declared size and the stored entrance position is in sync with the grid
(§3: at most one cell holds Entrance, and the stored coordinate, once set,
refers to a cell of matching kind). -/
def entranceWF (d : Dungeon) : Prop :=
  d.tiles.data.length = d.rows * d.cols ∧
  match d.entrance_pos with
  | none => countKind d.tiles ENTRANCE = 0
  | some p => p.1 < d.rows ∧ p.2 < d.cols ∧ d.tiles.cell p.1 p.2 = ENTRANCE ∧
      countKind d.tiles ENTRANCE = 1

/-- Mirror image of `entranceWF` for the exit. -/
def exitWF (d : Dungeon) : Prop :=
  d.tiles.data.length = d.rows * d.cols ∧
  match d.exit_pos with
  | none => countKind d.tiles EXIT = 0
  | some p => p.1 < d.rows ∧ p.2 < d.cols ∧ d.tiles.cell p.1 p.2 = EXIT ∧
      countKind d.tiles EXIT = 1

/-- Predecessor chains: the start-to-`v` lists that the predecessor map
encodes, exactly as `buildPath` walks them. -/
inductive BuildsPath (pred : List ((Nat × Nat) × (Nat × Nat))) (start : Nat × Nat) :
    Nat × Nat → List (Nat × Nat) → Prop where
  | base : BuildsPath pred start start [start]
  | step {v u : Nat × Nat} {l : List (Nat × Nat)} :
      lookupPred pred v = some u → BuildsPath pred start u l →
      BuildsPath pred start v (l ++ [v])

/-- Loop invariant of the Dijkstra search from `start` towards `goal`. -/
structure Inv (a : Array_2D) (start goal : Nat × Nat) (s : SearchState) : Prop where
  vis_nodup : s.visited.Nodup
  vis_walk : ∀ p ∈ s.visited, walkableB a p = true
  cells_nodup : s.cells.Nodup
  cells_walk : ∀ p ∈ s.cells, walkableB a p = true
  disj : ∀ p ∈ s.cells, p ∉ s.visited
  start_mem : start ∈ s.visited ∨ start ∈ s.cells
  closure : ∀ u ∈ s.visited, ∀ v, adjacentB u v = true → walkableB a v = true →
      v ∈ s.visited ∨ v ∈ s.cells
  goal_not_vis : goal ∉ s.visited
  keys_sub : ∀ k ∈ s.pred.map Prod.fst, k ∈ s.visited ∨ k ∈ s.cells
  start_not_key : start ∉ s.pred.map Prod.fst
  reach : ∀ v, v ∈ s.visited ∨ v ∈ s.cells → ∃ l, BuildsPath s.pred start v l ∧
      IsPath a l start v ∧ l.Nodup

/-- Intermediate invariant right after the popped cell `u` has been marked
visited but before (or while) its neighbours are relaxed: the closure field
exempts `u`. -/
structure MidInv (a : Array_2D) (start goal u : Nat × Nat) (s : SearchState) : Prop where
  vis_nodup : s.visited.Nodup
  vis_walk : ∀ p ∈ s.visited, walkableB a p = true
  cells_nodup : s.cells.Nodup
  cells_walk : ∀ p ∈ s.cells, walkableB a p = true
  disj : ∀ p ∈ s.cells, p ∉ s.visited
  start_mem : start ∈ s.visited ∨ start ∈ s.cells
  closure : ∀ w ∈ s.visited, w ≠ u → ∀ v, adjacentB w v = true →
      walkableB a v = true → v ∈ s.visited ∨ v ∈ s.cells
  u_vis : u ∈ s.visited
  goal_not_vis : goal ∉ s.visited
  keys_sub : ∀ k ∈ s.pred.map Prod.fst, k ∈ s.visited ∨ k ∈ s.cells
  start_not_key : start ∉ s.pred.map Prod.fst
  reach : ∀ v, v ∈ s.visited ∨ v ∈ s.cells → ∃ l, BuildsPath s.pred start v l ∧
      IsPath a l start v ∧ l.Nodup

/-- Member `Dungeon::get_hot_path_djikstra`, modelled from the spec: the
path discovered by the last search.  The C++ class declares no cache
member, so here the path travels alongside the flag in the result of
`find_path_djikstra`. -/
def Dungeon.get_hot_path_djikstra (d : Dungeon) : List (Nat × Nat) :=
  (d.find_path_djikstra).2

/-- Concrete 2×2 dungeon with entrance (0,0), exit (1,1) and all cells
walkable, used to exercise the connected-path theorem. -/
def demoOpen : Dungeon :=
  ⟨⟨2, 2, [ENTRANCE, FLOOR, FLOOR, EXIT]⟩, some (0, 0), some (1, 1), 0, 0⟩

/-- Concrete 5×5 dungeon with a solid wall column at column 2, entrance
(2,0) on its left and exit (2,4) on its right. -/
def demoBlocked : Dungeon :=
  ⟨⟨5, 5,
    [FLOOR, FLOOR, WALL, FLOOR, FLOOR,
     FLOOR, FLOOR, WALL, FLOOR, FLOOR,
     ENTRANCE, FLOOR, WALL, FLOOR, EXIT,
     FLOOR, FLOOR, WALL, FLOOR, FLOOR,
     FLOOR, FLOOR, WALL, FLOOR, FLOOR]⟩,
    some (2, 0), some (2, 4), 0, 0⟩

/-! Auxiliary lemmas about the linear backing store. -/

lemma getD_mem {l : List Nat} {k : Nat} (h : k < l.length) : l.getD k 0 ∈ l := by
  induction l generalizing k with
  | nil => simp at h
  | cons a t ih =>
    cases k with
    | zero => simp
    | succ k =>
      rw [List.getD_cons_succ]
      exact List.mem_cons_of_mem _ (ih (by simpa using h))

lemma getD_set_self {l : List Nat} {k v : Nat} (h : k < l.length) :
    (l.set k v).getD k 0 = v := by
  induction l generalizing k with
  | nil => simp at h
  | cons a t ih =>
    cases k with
    | zero => simp
    | succ k => simpa using ih (by simpa using h)

lemma getD_replicate {n k : Nat} : (List.replicate n (0 : Nat)).getD k 0 = 0 := by
  induction n generalizing k with
  | zero => simp
  | succ n ih => cases k <;> simp [List.replicate, ih]

lemma countP_set {l : List Nat} (p : Nat → Bool) {k : Nat} (v : Nat)
    (h : k < l.length) :
    (l.set k v).countP p + (if p (l.getD k 0) then 1 else 0) =
      l.countP p + (if p v then 1 else 0) := by
  induction l generalizing k with
  | nil => simp at h
  | cons a t ih =>
    cases k with
    | zero =>
      rw [List.set_cons_zero, List.getD_cons_zero, List.countP_cons, List.countP_cons]
      omega
    | succ k =>
      have ihk := ih (k := k) (by simpa using h)
      rw [List.set_cons_succ, List.getD_cons_succ, List.countP_cons, List.countP_cons]
      omega

lemma index_lt {i j r c : Nat} (hi : i < r) (hj : j < c) : i * c + j < r * c :=
  calc i * c + j < i * c + c := by omega
    _ = (i + 1) * c := by ring
    _ ≤ r * c := Nat.mul_le_mul_right c hi

lemma countKind_setCell (a : Array_2D) (t i j v : Nat)
    (h : i * a.cols + j < a.data.length) :
    countKind (a.setCell i j v) t + (if a.cell i j = t then 1 else 0) =
      countKind a t + (if v = t then 1 else 0) := by
  have hs := countP_set (l := a.data) (fun c => decide (c = t)) (k := i * a.cols + j) v h
  simpa [countKind, Array_2D.setCell, Array_2D.cell] using hs

lemma clearKind_entrance (d : Dungeon)
    (hlen : d.tiles.data.length = d.rows * d.cols)
    (hpos : match d.entrance_pos with
      | none => countKind d.tiles ENTRANCE = 0
      | some p => p.1 < d.rows ∧ p.2 < d.cols ∧ d.tiles.cell p.1 p.2 = ENTRANCE ∧
          countKind d.tiles ENTRANCE = 1) :
    (d.clearKind ENTRANCE).tiles.rows = d.tiles.rows ∧
    (d.clearKind ENTRANCE).tiles.cols = d.tiles.cols ∧
    (d.clearKind ENTRANCE).tiles.data.length = d.tiles.data.length ∧
    countKind (d.clearKind ENTRANCE).tiles ENTRANCE = 0 := by
  cases h : d.entrance_pos with
  | none =>
    rw [h] at hpos
    have hce : d.clearKind ENTRANCE = d := by
      unfold Dungeon.clearKind
      rw [if_pos rfl, h]
    rw [hce]
    exact ⟨rfl, rfl, rfl, hpos⟩
  | some q =>
    rw [h] at hpos
    obtain ⟨hq1, hq2, hcell, hcnt⟩ := hpos
    have hidx : q.1 * d.tiles.cols + q.2 < d.tiles.data.length := by
      rw [hlen]; exact index_lt hq1 hq2
    have hset := countKind_setCell d.tiles ENTRANCE q.1 q.2 FLOOR hidx
    rw [hcell, hcnt, if_pos rfl, if_neg (by decide)] at hset
    have hce : d.clearKind ENTRANCE =
        ⟨d.tiles.setCell q.1 q.2 FLOOR, none, d.exit_pos, d.seed, d.rng⟩ := by
      unfold Dungeon.clearKind
      rw [if_pos rfl, h]
    rw [hce]
    refine ⟨rfl, rfl, by simp [Array_2D.setCell], ?_⟩
    show countKind (d.tiles.setCell q.1 q.2 FLOOR) ENTRANCE = 0
    omega

lemma clearKind_exit (d : Dungeon)
    (hlen : d.tiles.data.length = d.rows * d.cols)
    (hpos : match d.exit_pos with
      | none => countKind d.tiles EXIT = 0
      | some p => p.1 < d.rows ∧ p.2 < d.cols ∧ d.tiles.cell p.1 p.2 = EXIT ∧
          countKind d.tiles EXIT = 1) :
    (d.clearKind EXIT).tiles.rows = d.tiles.rows ∧
    (d.clearKind EXIT).tiles.cols = d.tiles.cols ∧
    (d.clearKind EXIT).tiles.data.length = d.tiles.data.length ∧
    countKind (d.clearKind EXIT).tiles EXIT = 0 := by
  cases h : d.exit_pos with
  | none =>
    rw [h] at hpos
    have hce : d.clearKind EXIT = d := by
      unfold Dungeon.clearKind
      rw [if_neg (by decide), if_pos rfl, h]
    rw [hce]
    exact ⟨rfl, rfl, rfl, hpos⟩
  | some q =>
    rw [h] at hpos
    obtain ⟨hq1, hq2, hcell, hcnt⟩ := hpos
    have hidx : q.1 * d.tiles.cols + q.2 < d.tiles.data.length := by
      rw [hlen]; exact index_lt hq1 hq2
    have hset := countKind_setCell d.tiles EXIT q.1 q.2 FLOOR hidx
    rw [hcell, hcnt, if_pos rfl, if_neg (by decide)] at hset
    have hce : d.clearKind EXIT =
        ⟨d.tiles.setCell q.1 q.2 FLOOR, d.entrance_pos, none, d.seed, d.rng⟩ := by
      unfold Dungeon.clearKind
      rw [if_neg (by decide), if_pos rfl, h]
    rw [hce]
    refine ⟨rfl, rfl, by simp [Array_2D.setCell], ?_⟩
    show countKind (d.tiles.setCell q.1 q.2 FLOOR) EXIT = 0
    omega

lemma set_entrance_ok {d : Dungeon} {i j : Nat} (hw : entranceWF d)
    (hi : i < d.rows) (hj : j < d.cols) :
    ∃ d', d.set_entrance i j = .ok d' ∧ entranceWF d' ∧
      d'.entrance_pos = some (i, j) ∧ d'.rows = d.rows ∧ d'.cols = d.cols := by
  obtain ⟨hlen, hpos⟩ := hw
  obtain ⟨hr1, hc1, hl1, hcnt1⟩ := clearKind_entrance d hlen hpos
  have hidx2 : i * (d.clearKind ENTRANCE).tiles.cols + j <
      (d.clearKind ENTRANCE).tiles.data.length := by
    rw [hl1, hc1, hlen]; exact index_lt hi hj
  have hset2 := countKind_setCell (d.clearKind ENTRANCE).tiles ENTRANCE i j ENTRANCE hidx2
  have hcellold : (if (d.clearKind ENTRANCE).tiles.cell i j = ENTRANCE then 1 else 0) = 0 := by
    have hmem : (d.clearKind ENTRANCE).tiles.cell i j ∈ (d.clearKind ENTRANCE).tiles.data := by
      unfold Array_2D.cell
      exact getD_mem hidx2
    have h0 : (d.clearKind ENTRANCE).tiles.data.countP
        (fun c => decide (c = ENTRANCE)) = 0 := hcnt1
    have hall := List.countP_eq_zero.mp h0 _ hmem
    simp only [decide_eq_true_eq] at hall
    simp [hall]
  rw [hcnt1, hcellold, if_pos rfl] at hset2
  refine ⟨⟨(d.clearKind ENTRANCE).tiles.setCell i j ENTRANCE, some (i, j),
    (d.clearKind ENTRANCE).exit_pos, (d.clearKind ENTRANCE).seed,
    (d.clearKind ENTRANCE).rng⟩, ?_, ?_, rfl, ?_, ?_⟩
  · unfold Dungeon.set_entrance Dungeon.set_tile
    rw [if_pos ⟨hi, hj⟩]
    rw [if_pos rfl]
  · refine ⟨?_, ?_, ?_, ?_, ?_⟩
    · show ((d.clearKind ENTRANCE).tiles.setCell i j ENTRANCE).data.length =
        ((d.clearKind ENTRANCE).tiles.setCell i j ENTRANCE).rows *
          ((d.clearKind ENTRANCE).tiles.setCell i j ENTRANCE).cols
      simp only [Array_2D.setCell, List.length_set]
      rw [hl1, hr1, hc1]
      exact hlen
    · show i < ((d.clearKind ENTRANCE).tiles.setCell i j ENTRANCE).rows
      simp only [Array_2D.setCell]
      rw [hr1]
      exact hi
    · show j < ((d.clearKind ENTRANCE).tiles.setCell i j ENTRANCE).cols
      simp only [Array_2D.setCell]
      rw [hc1]
      exact hj
    · show ((d.clearKind ENTRANCE).tiles.setCell i j ENTRANCE).cell i j = ENTRANCE
      simp only [Array_2D.setCell, Array_2D.cell]
      exact getD_set_self hidx2
    · show countKind ((d.clearKind ENTRANCE).tiles.setCell i j ENTRANCE) ENTRANCE = 1
      omega
  · show ((d.clearKind ENTRANCE).tiles.setCell i j ENTRANCE).rows = d.tiles.rows
    simpa [Array_2D.setCell] using hr1
  · show ((d.clearKind ENTRANCE).tiles.setCell i j ENTRANCE).cols = d.tiles.cols
    simpa [Array_2D.setCell] using hc1

lemma set_exit_ok {d : Dungeon} {i j : Nat} (hw : exitWF d)
    (hi : i < d.rows) (hj : j < d.cols) :
    ∃ d', d.set_exit i j = .ok d' ∧ exitWF d' ∧
      d'.exit_pos = some (i, j) ∧ d'.rows = d.rows ∧ d'.cols = d.cols := by
  obtain ⟨hlen, hpos⟩ := hw
  obtain ⟨hr1, hc1, hl1, hcnt1⟩ := clearKind_exit d hlen hpos
  have hidx2 : i * (d.clearKind EXIT).tiles.cols + j <
      (d.clearKind EXIT).tiles.data.length := by
    rw [hl1, hc1, hlen]; exact index_lt hi hj
  have hset2 := countKind_setCell (d.clearKind EXIT).tiles EXIT i j EXIT hidx2
  have hcellold : (if (d.clearKind EXIT).tiles.cell i j = EXIT then 1 else 0) = 0 := by
    have hmem : (d.clearKind EXIT).tiles.cell i j ∈ (d.clearKind EXIT).tiles.data := by
      unfold Array_2D.cell
      exact getD_mem hidx2
    have h0 : (d.clearKind EXIT).tiles.data.countP
        (fun c => decide (c = EXIT)) = 0 := hcnt1
    have hall := List.countP_eq_zero.mp h0 _ hmem
    simp only [decide_eq_true_eq] at hall
    simp [hall]
  rw [hcnt1, hcellold, if_pos rfl] at hset2
  refine ⟨⟨(d.clearKind EXIT).tiles.setCell i j EXIT, (d.clearKind EXIT).entrance_pos,
    some (i, j), (d.clearKind EXIT).seed, (d.clearKind EXIT).rng⟩, ?_, ?_, rfl, ?_, ?_⟩
  · unfold Dungeon.set_exit Dungeon.set_tile
    rw [if_pos ⟨hi, hj⟩]
    rw [if_neg (by decide), if_pos rfl]
  · refine ⟨?_, ?_, ?_, ?_, ?_⟩
    · show ((d.clearKind EXIT).tiles.setCell i j EXIT).data.length =
        ((d.clearKind EXIT).tiles.setCell i j EXIT).rows *
          ((d.clearKind EXIT).tiles.setCell i j EXIT).cols
      simp only [Array_2D.setCell, List.length_set]
      rw [hl1, hr1, hc1]
      exact hlen
    · show i < ((d.clearKind EXIT).tiles.setCell i j EXIT).rows
      simp only [Array_2D.setCell]
      rw [hr1]
      exact hi
    · show j < ((d.clearKind EXIT).tiles.setCell i j EXIT).cols
      simp only [Array_2D.setCell]
      rw [hc1]
      exact hj
    · show ((d.clearKind EXIT).tiles.setCell i j EXIT).cell i j = EXIT
      simp only [Array_2D.setCell, Array_2D.cell]
      exact getD_set_self hidx2
    · show countKind ((d.clearKind EXIT).tiles.setCell i j EXIT) EXIT = 1
      omega
  · show ((d.clearKind EXIT).tiles.setCell i j EXIT).rows = d.tiles.rows
    simpa [Array_2D.setCell] using hr1
  · show ((d.clearKind EXIT).tiles.setCell i j EXIT).cols = d.tiles.cols
    simpa [Array_2D.setCell] using hc1

/-! Claim theorems for the grid data model and the generation dispatch. -/

/-- C1: the claim says a successful `generate(method)` leaves exactly one
Entrance and one Exit cell.  The implemented `NAIVE` branch of
`RogueDungeon::generate_random_dungeon` is an empty stub, so on a fresh
3×3 dungeon the grid still holds zero Entrance and zero Exit cells after
the call returns. -/
theorem naive_generation_stub_no_entrance_exit :
    countKind (((RogueDungeon.make 3 3 1).generate_random_dungeon 0).1.toDungeon.tiles)
        ENTRANCE = 0 ∧
    countKind (((RogueDungeon.make 3 3 1).generate_random_dungeon 0).1.toDungeon.tiles)
        EXIT = 0 := by
  decide

/-- C2: the claim says `generate(Voronoi)` on a variant that does not
implement it fails with `UnsupportedMethod`.  The implemented code instead
writes a diagnostic line to `stderr` and returns normally; the grid (and
the whole model) is unchanged, and no error value reaches the caller — the
function's only outputs are the unchanged model and the `stderr` text. -/
theorem voronoi_generation_stub_diagnostic_only :
    (RogueDungeon.make 3 3 1).generate_random_dungeon 4 =
      (RogueDungeon.make 3 3 1, ["Method not implemented yet"]) := by
  rfl

/-- C3: a freshly constructed dungeon with positive dimensions has every
cell equal to Wall, and neither an entrance nor an exit coordinate set. -/
theorem fresh_dungeon_all_wall (rows cols seed : Nat)
    (hr : 0 < rows) (hc : 0 < cols) :
    (∀ i j, i < rows → j < cols →
      (Dungeon.make rows cols seed).tile_at i j = .ok WALL) ∧
    (Dungeon.make rows cols seed).entrance_pos = none ∧
    (Dungeon.make rows cols seed).exit_pos = none := by
  refine ⟨fun i j hi hj => ?_, rfl, rfl⟩
  unfold Dungeon.tile_at Array_2D.at Dungeon.make Array_2D.make
  rw [if_pos ⟨hi, hj⟩]
  rw [getD_replicate]
  rfl

/-- Witness for C3 at concrete dimensions 3×4 and seed 7. -/
theorem fresh_dungeon_all_wall_witness :
    (Dungeon.make 3 4 7).tile_at 2 3 = .ok WALL ∧
    (Dungeon.make 3 4 7).entrance_pos = none :=
  ⟨(fresh_dungeon_all_wall 3 4 7 (by decide) (by decide)).1 2 3 (by decide) (by decide),
    (fresh_dungeon_all_wall 3 4 7 (by decide) (by decide)).2.1⟩

/-- C4: `RogueDungeon::generate_random_dungeon` leaves the entire model
state — tiles, entrance position, exit position, stored seed and random
stream — unchanged for every method value; its only other output is the
diagnostic text. -/
theorem generate_random_dungeon_frame (d : RogueDungeon) (method : Int) :
    (d.generate_random_dungeon method).1 = d := by
  unfold RogueDungeon.generate_random_dungeon
  split_ifs <;> rfl

/-- C5: setting the entrance at one in-bounds coordinate and then at a
different in-bounds coordinate leaves exactly one Entrance cell in the
grid, and the same holds for the exit. -/
theorem set_entrance_twice_single_entrance (d : Dungeon) (i j i' j' : Nat)
    (hent : entranceWF d) (hext : exitWF d)
    (hi : i < d.rows) (hj : j < d.cols) (hi' : i' < d.rows) (hj' : j' < d.cols)
    (hne : (i, j) ≠ (i', j')) :
    (∃ d1 d2, d.set_entrance i j = .ok d1 ∧ d1.set_entrance i' j' = .ok d2 ∧
      countKind d2.tiles ENTRANCE = 1) ∧
    (∃ e1 e2, d.set_exit i j = .ok e1 ∧ e1.set_exit i' j' = .ok e2 ∧
      countKind e2.tiles EXIT = 1) := by
  constructor
  · obtain ⟨d1, h1, hw1, _, hr1, hc1⟩ := set_entrance_ok hent hi hj
    obtain ⟨d2, h2, hw2, he2, _, _⟩ :=
      set_entrance_ok hw1 (hr1 ▸ hi') (hc1 ▸ hj')
    refine ⟨d1, d2, h1, h2, ?_⟩
    obtain ⟨_, hpos2⟩ := hw2
    rw [he2] at hpos2
    exact hpos2.2.2.2
  · obtain ⟨e1, h1, hw1, _, hr1, hc1⟩ := set_exit_ok hext hi hj
    obtain ⟨e2, h2, hw2, he2, _, _⟩ :=
      set_exit_ok hw1 (hr1 ▸ hi') (hc1 ▸ hj')
    refine ⟨e1, e2, h1, h2, ?_⟩
    obtain ⟨_, hpos2⟩ := hw2
    rw [he2] at hpos2
    exact hpos2.2.2.2

/-- Witness for C5 on a fresh 3×3 dungeon, moving the entrance (and the
exit) from (0, 0) to (1, 2). -/
theorem set_entrance_twice_single_entrance_witness :
    (∃ d1 d2, (Dungeon.make 3 3 0).set_entrance 0 0 = .ok d1 ∧
      d1.set_entrance 1 2 = .ok d2 ∧ countKind d2.tiles ENTRANCE = 1) ∧
    (∃ e1 e2, (Dungeon.make 3 3 0).set_exit 0 0 = .ok e1 ∧
      e1.set_exit 1 2 = .ok e2 ∧ countKind e2.tiles EXIT = 1) :=
  set_entrance_twice_single_entrance (Dungeon.make 3 3 0) 0 0 1 2
    ⟨by decide, show countKind (Dungeon.make 3 3 0).tiles ENTRANCE = 0 by decide⟩
    ⟨by decide, show countKind (Dungeon.make 3 3 0).tiles EXIT = 0 by decide⟩
    (by decide) (by decide) (by decide) (by decide) (by decide)

/-- C8: every accessor and mutator — the raw element access, `tile_at`,
`set_tile`, `is_wall`, `is_exit` — fails with `OutOfBounds` for any
coordinate outside `[0, rows) × [0, cols)`. -/
theorem out_of_bounds_accessors_error (d : Dungeon) (i j : Nat)
    (h : ¬ (i < d.rows ∧ j < d.cols)) :
    d.tiles.at i j = .error .OutOfBounds ∧
    d.tile_at i j = .error .OutOfBounds ∧
    (∀ tile, d.set_tile i j tile = .error .OutOfBounds) ∧
    d.is_wall i j = .error .OutOfBounds ∧
    d.is_exit i j = .error .OutOfBounds := by
  have hat : d.tiles.at i j = .error .OutOfBounds := by
    unfold Array_2D.at
    exact if_neg h
  refine ⟨hat, hat, fun tile => ?_, ?_, ?_⟩
  · unfold Dungeon.set_tile
    exact if_neg h
  · unfold Dungeon.is_wall Dungeon.tile_at
    rw [hat]
    rfl
  · unfold Dungeon.is_exit Dungeon.tile_at
    rw [hat]
    rfl

/-- Witness for C8 on a 2×2 dungeon with the out-of-range row index 2. -/
theorem out_of_bounds_accessors_error_witness :
    (Dungeon.make 2 2 0).tile_at 2 0 = .error .OutOfBounds ∧
    (Dungeon.make 2 2 0).set_tile 2 0 ENTRANCE = .error .OutOfBounds ∧
    (Dungeon.make 2 2 0).is_wall 2 0 = .error .OutOfBounds :=
  ⟨(out_of_bounds_accessors_error (Dungeon.make 2 2 0) 2 0 (by decide)).2.1,
    (out_of_bounds_accessors_error (Dungeon.make 2 2 0) 2 0 (by decide)).2.2.1 ENTRANCE,
    (out_of_bounds_accessors_error (Dungeon.make 2 2 0) 2 0 (by decide)).2.2.2.1⟩

/-- C9: for a fixed seed and equal dimensions, two freshly constructed
models put through the same generation method end with identical grids. -/
theorem fixed_seed_determinism (rows cols seed : Nat) (method : Int)
    (d1 d2 : RogueDungeon)
    (h1 : d1 = RogueDungeon.make rows cols seed)
    (h2 : d2 = RogueDungeon.make rows cols seed) :
    (d1.generate_random_dungeon method).1.toDungeon.tiles =
      (d2.generate_random_dungeon method).1.toDungeon.tiles := by
  subst h1
  subst h2
  rfl

/-- Witness for C9 at 10×10, seed 42, method `NAIVE`. -/
theorem fixed_seed_determinism_witness :
    ((RogueDungeon.make 10 10 42).generate_random_dungeon 0).1.toDungeon.tiles =
      ((RogueDungeon.make 10 10 42).generate_random_dungeon 0).1.toDungeon.tiles :=
  fixed_seed_determinism 10 10 42 0 _ _ rfl rfl

/-- C10: `RogueDungeon::generate_random_dungeon` is total and signals no
error for any method value: the model comes back unchanged, the only other
output is at most one diagnostic line, and the `default` branch's
"not available" diagnostic appears exactly for the values outside the
declared enumeration 0–5. -/
theorem generate_random_dungeon_never_errors (d : RogueDungeon) (method : Int) :
    (d.generate_random_dungeon method).1 = d ∧
    ((d.generate_random_dungeon method).2 = [] ∨
      (d.generate_random_dungeon method).2 = ["Method not implemented yet"] ∨
      (d.generate_random_dungeon method).2 =
        ["Method not available for this kind of dungeon"]) ∧
    ((method = 0 ∨ method = 1 ∨ method = 2 ∨ method = 3 ∨ method = 4 ∨ method = 5) ↔
      (d.generate_random_dungeon method).2 ≠
        ["Method not available for this kind of dungeon"]) := by
  unfold RogueDungeon.generate_random_dungeon
  split_ifs with h1 h2
  · refine ⟨rfl, Or.inl rfl, ?_, fun _ => Or.inl h1⟩
    intro _ hx
    simp at hx
  · refine ⟨rfl, Or.inr (Or.inl rfl), ?_, fun _ => Or.inr h2⟩
    intro _ hx
    have hstr : "Method not implemented yet" =
        "Method not available for this kind of dungeon" := by
      injection hx
    exact absurd hstr (by decide)
  · refine ⟨rfl, Or.inr (Or.inr rfl), ?_, fun hne => absurd rfl hne⟩
    rintro (h | h)
    · exact absurd h h1
    · exact absurd h h2

/-! Pathfinder correctness development.  The lemmas below establish that the
modelled Dijkstra search finds a valid entrance-to-exit path exactly when
one exists. -/

lemma walkableB_bounds {a : Array_2D} {p : Nat × Nat}
    (h : walkableB a p = true) : p.1 < a.rows ∧ p.2 < a.cols := by
  unfold walkableB at h
  simp only [decide_eq_true_eq] at h
  exact ⟨h.1, h.2.1⟩

lemma mem_neighbors_cases {u v : Nat × Nat} (h : v ∈ neighbors u) :
    (0 < u.1 ∧ v = (u.1 - 1, u.2)) ∨ v = (u.1 + 1, u.2) ∨
    (0 < u.2 ∧ v = (u.1, u.2 - 1)) ∨ v = (u.1, u.2 + 1) := by
  unfold neighbors at h
  simp only [List.mem_append] at h
  rcases h with ((h | h) | h) | h
  · by_cases h1 : 0 < u.1
    · rw [if_pos h1] at h
      simp at h
      exact Or.inl ⟨h1, h⟩
    · rw [if_neg h1] at h
      simp at h
  · simp at h
    exact Or.inr (Or.inl h)
  · by_cases h2 : 0 < u.2
    · rw [if_pos h2] at h
      simp at h
      exact Or.inr (Or.inr (Or.inl ⟨h2, h⟩))
    · rw [if_neg h2] at h
      simp at h
  · simp at h
    exact Or.inr (Or.inr (Or.inr h))

lemma adjacentB_of_mem_neighbors {u v : Nat × Nat} (h : v ∈ neighbors u) :
    adjacentB u v = true := by
  unfold adjacentB
  simp only [decide_eq_true_eq]
  rcases mem_neighbors_cases h with ⟨h1, rfl⟩ | rfl | ⟨h2, rfl⟩ | rfl <;>
    simp <;> omega

lemma mem_neighbors_of_adjacentB {u v : Nat × Nat} (h : adjacentB u v = true) :
    v ∈ neighbors u := by
  unfold adjacentB at h
  simp only [decide_eq_true_eq] at h
  obtain ⟨u1, u2⟩ := u
  obtain ⟨v1, v2⟩ := v
  unfold neighbors
  simp only [List.mem_append]
  rcases h with ⟨h1, h2 | h2⟩ | ⟨h1, h2 | h2⟩
  · refine Or.inl (Or.inr ?_)
    rw [if_pos (by omega)]
    simp [Prod.ext_iff]
    omega
  · refine Or.inr ?_
    simp [Prod.ext_iff]
    omega
  · refine Or.inl (Or.inl (Or.inl ?_))
    rw [if_pos (by omega)]
    simp [Prod.ext_iff]
    omega
  · refine Or.inl (Or.inl (Or.inr ?_))
    simp [Prod.ext_iff]
    omega

lemma popMin_eq_none {l : List ((Nat × Nat) × Nat)} : popMin l = none ↔ l = [] := by
  cases l with
  | nil => simp [popMin]
  | cons e es =>
    simp only [popMin]
    cases h : popMin es with
    | none => simp
    | some p =>
      obtain ⟨m, rest⟩ := p
      by_cases he : e.2 ≤ m.2 <;> simp [he]

lemma popMin_perm {l : List ((Nat × Nat) × Nat)} {m : (Nat × Nat) × Nat}
    {rest : List ((Nat × Nat) × Nat)} (h : popMin l = some (m, rest)) :
    l.Perm (m :: rest) := by
  induction l generalizing m rest with
  | nil => simp [popMin] at h
  | cons e es ih =>
    simp only [popMin] at h
    cases hes : popMin es with
    | none =>
      rw [hes] at h
      have hnil : es = [] := popMin_eq_none.mp hes
      subst hnil
      simp at h
      obtain ⟨rfl, rfl⟩ := h
      exact List.Perm.refl _
    | some p =>
      obtain ⟨m', rest'⟩ := p
      rw [hes] at h
      dsimp only at h
      by_cases he : e.2 ≤ m'.2
      · rw [if_pos he] at h
        simp at h
        obtain ⟨rfl, rfl⟩ := h
        exact List.Perm.refl _
      · rw [if_neg he] at h
        simp at h
        obtain ⟨h3, h4⟩ := h
        rw [← h3, ← h4]
        have h1 := ih hes
        exact (h1.cons e).trans (List.Perm.swap m' e rest')

lemma axisDist_self (a : Nat) : axisDist a a = 0 := by
  unfold axisDist
  omega

lemma axisDist_succ_left (a : Nat) : axisDist (a + 1) a = 1 := by
  unfold axisDist
  omega

lemma axisDist_succ_right (a : Nat) : axisDist a (a + 1) = 1 := by
  unfold axisDist
  omega

lemma axisDist_triangle (a b c : Nat) : axisDist a c ≤ axisDist a b + axisDist b c := by
  show Nat.dist a c ≤ Nat.dist a b + Nat.dist b c
  exact Nat.dist.triangle_inequality a b c

lemma adjacent_manhattan {p q : Nat × Nat} (h : adjacentB p q = true) :
    manhattan p q = 1 := by
  unfold adjacentB at h
  simp only [decide_eq_true_eq] at h
  unfold manhattan
  rcases h with ⟨h1, h2 | h2⟩ | ⟨h1, h2 | h2⟩
  · rw [h1, h2, axisDist_self, axisDist_succ_left]
  · rw [h1, h2, axisDist_self, axisDist_succ_right]
  · rw [h1, h2, axisDist_self, axisDist_succ_left]
  · rw [h1, h2, axisDist_self, axisDist_succ_right]

lemma manhattan_triangle (p q r : Nat × Nat) :
    manhattan p r ≤ manhattan p q + manhattan q r := by
  unfold manhattan
  have h1 := axisDist_triangle p.1 q.1 r.1
  have h2 := axisDist_triangle p.2 q.2 r.2
  omega

lemma chainAdjB_iff : ∀ l : List (Nat × Nat),
    chainAdjB l = true ↔ l.Chain' (fun p q => adjacentB p q = true)
  | [] => by simp [chainAdjB]
  | [p] => by simp [chainAdjB]
  | p :: q :: t => by
    rw [List.chain'_cons]
    simp only [chainAdjB, Bool.and_eq_true]
    exact and_congr Iff.rfl (chainAdjB_iff (q :: t))

lemma manhattan_le_of_chain :
    ∀ (l : List (Nat × Nat)) (s g : Nat × Nat),
      l.head? = some s → l.getLast? = some g →
      l.Chain' (fun p q => adjacentB p q = true) →
      manhattan s g + 1 ≤ l.length := by
  intro l
  induction l with
  | nil => intro s g hs _ _; simp at hs
  | cons p t ih =>
    intro s g hs hg hc
    simp at hs
    subst hs
    cases t with
    | nil =>
      simp at hg
      subst hg
      simp [manhattan, axisDist]
    | cons q t2 =>
      rw [List.chain'_cons] at hc
      obtain ⟨hadj, hc2⟩ := hc
      rw [List.getLast?_cons_cons] at hg
      have h1 := adjacent_manhattan hadj
      have h2 := manhattan_triangle p q g
      have h3 := ih q g rfl hg hc2
      simp only [List.length_cons] at h3 ⊢
      omega

lemma isPath_start_walkable {a : Array_2D} {l : List (Nat × Nat)}
    {s g : Nat × Nat} (h : IsPath a l s g) : walkableB a s = true := by
  obtain ⟨hne, hhead, _, hwalk, _⟩ := h
  cases l with
  | nil => exact absurd rfl hne
  | cons p t =>
    simp at hhead
    subst hhead
    exact hwalk _ (List.mem_cons_self _ _)

lemma isPath_goal_walkable {a : Array_2D} {l : List (Nat × Nat)}
    {s g : Nat × Nat} (h : IsPath a l s g) : walkableB a g = true := by
  obtain ⟨hne, _, hlast, hwalk, _⟩ := h
  have hmem : g ∈ l := by
    have := List.mem_of_mem_getLast? (l := l) (a := g)
    exact this (by rw [hlast]; rfl)
  exact hwalk g hmem

lemma isPath_singleton {a : Array_2D} {p : Nat × Nat}
    (h : walkableB a p = true) : IsPath a [p] p p := by
  refine ⟨by simp, rfl, rfl, ?_, rfl⟩
  intro q hq
  simp at hq
  subst hq
  exact h

lemma isPath_append {a : Array_2D} {l : List (Nat × Nat)} {s u v : Nat × Nat}
    (h : IsPath a l s u) (hadj : adjacentB u v = true)
    (hw : walkableB a v = true) : IsPath a (l ++ [v]) s v := by
  obtain ⟨hne, hhead, hlast, hwalk, hchain⟩ := h
  refine ⟨by simp, ?_, ?_, ?_, ?_⟩
  · cases l with
    | nil => exact absurd rfl hne
    | cons p t => simpa using hhead
  · simp
  · intro q hq
    rcases List.mem_append.mp hq with hq | hq
    · exact hwalk q hq
    · simp at hq
      subst hq
      exact hw
  · rw [chainAdjB_iff]
    rw [List.chain'_append]
    refine ⟨(chainAdjB_iff l).mp hchain, by simp, ?_⟩
    intro x hx y hy
    rw [hlast] at hx
    simp at hx hy
    subst hx
    subst hy
    exact hadj

lemma isPath_cons_cons {a : Array_2D} {p q : Nat × Nat} {t : List (Nat × Nat)}
    {s g : Nat × Nat} (h : IsPath a (p :: q :: t) s g) :
    s = p ∧ adjacentB p q = true ∧ IsPath a (q :: t) q g := by
  obtain ⟨hne, hhead, hlast, hwalk, hchain⟩ := h
  simp at hhead
  simp only [chainAdjB, Bool.and_eq_true] at hchain
  rw [List.getLast?_cons_cons] at hlast
  refine ⟨hhead.symm, hchain.1, by simp, rfl, hlast, ?_, hchain.2⟩
  intro r hr
  exact hwalk r (List.mem_cons_of_mem _ hr)

lemma length_le_area {a : Array_2D} {l : List (Nat × Nat)} (hnd : l.Nodup)
    (hb : ∀ p ∈ l, p.1 < a.rows ∧ p.2 < a.cols) :
    l.length ≤ a.rows * a.cols := by
  classical
  have hsub : l.toFinset ⊆ Finset.range a.rows ×ˢ Finset.range a.cols := by
    intro p hp
    rw [List.mem_toFinset] at hp
    rcases hb p hp with ⟨h1, h2⟩
    rw [Finset.mem_product, Finset.mem_range, Finset.mem_range]
    exact ⟨h1, h2⟩
  have hcard := Finset.card_le_card hsub
  rw [List.toFinset_card_of_nodup hnd] at hcard
  simpa [Finset.card_product, Finset.card_range] using hcard

lemma chain_crosses (c : Nat) :
    ∀ (l : List (Nat × Nat)) (s g : Nat × Nat),
      l.head? = some s → l.getLast? = some g →
      l.Chain' (fun p q => adjacentB p q = true) →
      s.2 ≤ c → c < g.2 → ∃ p ∈ l, p.2 = c := by
  intro l
  induction l with
  | nil => intro s g hs _ _ _ _; simp at hs
  | cons p t ih =>
    intro s g hs hg hc hsc hgc
    simp at hs
    subst hs
    by_cases hpc : p.2 = c
    · exact ⟨p, List.mem_cons_self _ _, hpc⟩
    · have hplt : p.2 < c := by omega
      cases t with
      | nil =>
        simp at hg
        subst hg
        omega
      | cons q t2 =>
        rw [List.chain'_cons] at hc
        obtain ⟨hadj, hc2⟩ := hc
        rw [List.getLast?_cons_cons] at hg
        have hq2 : q.2 ≤ c := by
          unfold adjacentB at hadj
          simp only [decide_eq_true_eq] at hadj
          rcases hadj with ⟨h1, h2 | h2⟩ | ⟨h1, h2 | h2⟩ <;> omega
        obtain ⟨r, hr, hrc⟩ := ih q g rfl hg hc2 hq2 hgc
        exact ⟨r, List.mem_cons_of_mem _ hr, hrc⟩

lemma no_path_of_wall_column {a : Array_2D} (c : Nat)
    (hwall : ∀ i, i < a.rows → walkableB a (i, c) = false)
    {s g : Nat × Nat} (hs : s.2 < c) (hg : c < g.2) :
    ¬ ∃ l, IsPath a l s g := by
  rintro ⟨l, hl⟩
  obtain ⟨hne, hhead, hlast, hwalk, hchain⟩ := hl
  obtain ⟨p, hp, hpc⟩ :=
    chain_crosses c l s g hhead hlast ((chainAdjB_iff l).mp hchain) (by omega) hg
  have hw := hwalk p hp
  have hb := walkableB_bounds hw
  have hfalse := hwall p.1 hb.1
  have hpeq : p = (p.1, c) := by
    rw [← hpc]
  rw [hpeq] at hw
  rw [hw] at hfalse
  exact absurd hfalse (by decide)

lemma lookupPred_mem_keys {pred : List ((Nat × Nat) × (Nat × Nat))}
    {v u : Nat × Nat} (h : lookupPred pred v = some u) :
    v ∈ pred.map Prod.fst := by
  unfold lookupPred at h
  cases hf : pred.find? (fun e => decide (e.1 = v)) with
  | none => rw [hf] at h; simp at h
  | some e =>
    have hmem := List.mem_of_find?_eq_some hf
    have hkey := List.find?_some hf
    simp only [decide_eq_true_eq] at hkey
    rw [← hkey]
    exact List.mem_map.mpr ⟨e, hmem, rfl⟩

lemma lookupPred_cons_self {pred : List ((Nat × Nat) × (Nat × Nat))}
    {v u : Nat × Nat} : lookupPred ((v, u) :: pred) v = some u := by
  unfold lookupPred
  rw [List.find?_cons_of_pos _ (by simp)]
  rfl

lemma buildsPath_sub {pred : List ((Nat × Nat) × (Nat × Nat))}
    {start v : Nat × Nat} {l : List (Nat × Nat)}
    (h : BuildsPath pred start v l) :
    ∀ x ∈ l, x = start ∨ x ∈ pred.map Prod.fst := by
  induction h with
  | base =>
    intro x hx
    simp at hx
    exact Or.inl hx
  | step hl hb ih =>
    intro x hx
    rcases List.mem_append.mp hx with hx | hx
    · exact ih x hx
    · simp at hx
      subst hx
      exact Or.inr (lookupPred_mem_keys hl)

lemma buildsPath_mono {pred : List ((Nat × Nat) × (Nat × Nat))}
    {start v : Nat × Nat} {l : List (Nat × Nat)}
    (k : (Nat × Nat) × (Nat × Nat))
    (h : BuildsPath pred start v l) (hk : k.1 ∉ l) :
    BuildsPath (k :: pred) start v l := by
  induction h with
  | base => exact BuildsPath.base
  | step hl hb ih =>
    rename_i v2 u2 l2
    have hkv : k.1 ≠ v2 := by
      intro he
      exact hk (by rw [he]; exact List.mem_append.mpr (Or.inr (by simp)))
    have hl2 : lookupPred (k :: pred) v2 = some u2 := by
      unfold lookupPred at hl ⊢
      rw [List.find?_cons_of_neg _ (by simpa using hkv)]
      exact hl
    have hk2 : k.1 ∉ l2 := fun hx => hk (List.mem_append.mpr (Or.inl hx))
    exact BuildsPath.step hl2 (ih hk2)

lemma buildPath_complete {pred : List ((Nat × Nat) × (Nat × Nat))}
    {start v : Nat × Nat} {l : List (Nat × Nat)}
    (h : BuildsPath pred start v l) (hstart : start ∉ pred.map Prod.fst) :
    ∀ fuel, l.length ≤ fuel → buildPath pred start v fuel = some l := by
  induction h with
  | base =>
    intro fuel hf
    cases fuel with
    | zero => simp at hf
    | succ f => simp [buildPath]
  | step hl hb ih =>
    rename_i v2 u2 l2
    intro fuel hf
    cases fuel with
    | zero => simp at hf
    | succ f =>
      have hne : v2 ≠ start := by
        intro he
        rw [he] at hl
        exact hstart (lookupPred_mem_keys hl)
      simp only [buildPath]
      rw [if_neg hne, hl]
      dsimp only
      have hlen : l2.length ≤ f := by
        simp at hf
        omega
      rw [ih f hlen]
      rfl

lemma buildsPath_length_le {pred : List ((Nat × Nat) × (Nat × Nat))}
    {start v : Nat × Nat} {l : List (Nat × Nat)}
    (h : BuildsPath pred start v l) (hnd : l.Nodup) :
    l.length ≤ pred.length + 1 := by
  have hsub : l ⊆ start :: pred.map Prod.fst := by
    intro x hx
    rcases buildsPath_sub h x hx with h1 | h1
    · simp [h1]
    · exact List.mem_cons_of_mem _ h1
  have hle := (hnd.subperm hsub).length_le
  simpa using hle

lemma stepRelax_midinv {a : Array_2D} {start goal u : Nat × Nat} {du : Nat}
    {v : Nat × Nat} {s : SearchState}
    (hadj : adjacentB u v = true) (h : MidInv a start goal u s) :
    MidInv a start goal u (stepRelax a u du s v) ∧
    (stepRelax a u du s v).visited = s.visited ∧
    (∀ w ∈ s.cells, w ∈ (stepRelax a u du s v).cells) ∧
    (walkableB a v = true →
      v ∈ (stepRelax a u du s v).visited ∨ v ∈ (stepRelax a u du s v).cells) := by
  unfold stepRelax
  by_cases hcond : walkableB a v = true ∧ v ∉ s.visited ∧ v ∉ s.cells
  case neg =>
    rw [if_neg hcond]
    refine ⟨h, rfl, fun w hw => hw, fun hw => ?_⟩
    by_cases hv : v ∈ s.visited
    · exact Or.inl hv
    · by_cases hc : v ∈ s.cells
      · exact Or.inr hc
      · exact absurd ⟨hw, hv, hc⟩ hcond
  case pos =>
    obtain ⟨hw, hvv, hvc⟩ := hcond
    rw [if_pos ⟨hw, hvv, hvc⟩]
    have hcells : (SearchState.mk (s.frontier ++ [(v, du + 1)]) s.visited
        ((v, u) :: s.pred)).cells = s.cells ++ [v] := by
      unfold SearchState.cells
      simp
    have hvis : (SearchState.mk (s.frontier ++ [(v, du + 1)]) s.visited
        ((v, u) :: s.pred)).visited = s.visited := rfl
    refine ⟨?_, rfl, ?_, ?_⟩
    · refine ⟨h.vis_nodup, h.vis_walk, ?_, ?_, ?_, ?_, ?_, h.u_vis, h.goal_not_vis,
        ?_, ?_, ?_⟩
      · rw [hcells]
        rw [List.nodup_append]
        exact ⟨h.cells_nodup, by simp, by simpa using hvc⟩
      · rw [hcells]
        intro p hp
        rcases List.mem_append.mp hp with hp | hp
        · exact h.cells_walk p hp
        · simp at hp
          subst hp
          exact hw
      · rw [hcells, hvis]
        intro p hp
        rcases List.mem_append.mp hp with hp | hp
        · exact h.disj p hp
        · simp at hp
          subst hp
          exact hvv
      · rw [hcells, hvis]
        rcases h.start_mem with hs | hs
        · exact Or.inl hs
        · exact Or.inr (List.mem_append.mpr (Or.inl hs))
      · rw [hcells, hvis]
        intro w hwv hwu v2 hadj2 hwalk2
        rcases h.closure w hwv hwu v2 hadj2 hwalk2 with h2 | h2
        · exact Or.inl h2
        · exact Or.inr (List.mem_append.mpr (Or.inl h2))
      · rw [hcells, hvis]
        intro k hk
        simp only [List.map_cons] at hk
        rcases List.mem_cons.mp hk with hk | hk
        · subst hk
          exact Or.inr (List.mem_append.mpr (Or.inr (by simp)))
        · rcases h.keys_sub k hk with h2 | h2
          · exact Or.inl h2
          · exact Or.inr (List.mem_append.mpr (Or.inl h2))
      · simp only [List.map_cons]
        intro hk
        rcases List.mem_cons.mp hk with hk | hk
        · rcases h.start_mem with hs | hs
          · exact hvv (hk ▸ hs)
          · exact hvc (hk ▸ hs)
        · exact h.start_not_key hk
      · rw [hcells, hvis]
        have hfresh : ∀ l2 : List (Nat × Nat),
            (∀ x ∈ l2, x ∈ s.visited ∨ x ∈ s.cells) → v ∉ l2 := by
          intro l2 hsub hvl
          rcases hsub v hvl with h2 | h2
          · exact hvv h2
          · exact hvc h2
        have hold : ∀ w2, w2 ∈ s.visited ∨ w2 ∈ s.cells →
            ∃ l, BuildsPath ((v, u) :: s.pred) start w2 l ∧ IsPath a l start w2 ∧
              l.Nodup := by
          intro w2 hw2
          obtain ⟨l, hb, hp, hn⟩ := h.reach w2 hw2
          have hsub2 : ∀ x ∈ l, x ∈ s.visited ∨ x ∈ s.cells := by
            intro x hx
            rcases buildsPath_sub hb x hx with h2 | h2
            · rcases h.start_mem with hs | hs
              · exact Or.inl (by rw [h2]; exact hs)
              · exact Or.inr (by rw [h2]; exact hs)
            · exact h.keys_sub x h2
          exact ⟨l, buildsPath_mono (v, u) hb (hfresh l hsub2), hp, hn⟩
        intro w hwmem
        rcases hwmem with hwmem | hwmem
        · exact hold w (Or.inl hwmem)
        · rcases List.mem_append.mp hwmem with hwmem | hwmem
          · exact hold w (Or.inr hwmem)
          · simp at hwmem
            rw [hwmem]
            obtain ⟨l, hb, hp, hn⟩ := h.reach u (Or.inl h.u_vis)
            have hsub2 : ∀ x ∈ l, x ∈ s.visited ∨ x ∈ s.cells := by
              intro x hx
              rcases buildsPath_sub hb x hx with h2 | h2
              · rcases h.start_mem with hs | hs
                · exact Or.inl (by rw [h2]; exact hs)
                · exact Or.inr (by rw [h2]; exact hs)
              · exact h.keys_sub x h2
            have hvnl : v ∉ l := hfresh l hsub2
            refine ⟨l ++ [v], BuildsPath.step lookupPred_cons_self
              (buildsPath_mono (v, u) hb hvnl),
              isPath_append hp hadj hw, ?_⟩
            rw [List.nodup_append]
            exact ⟨hn, by simp, by simpa using hvnl⟩
    · rw [hcells]
      intro w hwc
      exact List.mem_append.mpr (Or.inl hwc)
    · intro _
      rw [hcells]
      exact Or.inr (List.mem_append.mpr (Or.inr (by simp)))

lemma relax_foldl {a : Array_2D} {start goal u : Nat × Nat} {du : Nat} :
    ∀ (ns : List (Nat × Nat)) (s : SearchState),
      (∀ v ∈ ns, adjacentB u v = true) → MidInv a start goal u s →
      MidInv a start goal u (ns.foldl (stepRelax a u du) s) ∧
      (ns.foldl (stepRelax a u du) s).visited = s.visited ∧
      (∀ w ∈ s.cells, w ∈ (ns.foldl (stepRelax a u du) s).cells) ∧
      (∀ v ∈ ns, walkableB a v = true →
        v ∈ (ns.foldl (stepRelax a u du) s).visited ∨
          v ∈ (ns.foldl (stepRelax a u du) s).cells) := by
  intro ns
  induction ns with
  | nil =>
    intro s _ h
    exact ⟨h, rfl, fun w hw => hw, by simp⟩
  | cons v0 ns ih =>
    intro s hadj h
    obtain ⟨h1, h2, h3, h4⟩ := stepRelax_midinv (hadj v0 (by simp)) h
    obtain ⟨g1, g2, g3, g4⟩ :=
      ih (stepRelax a u du s v0) (fun v hv => hadj v (by simp [hv])) h1
    rw [List.foldl_cons]
    refine ⟨g1, by rw [g2, h2], ?_, ?_⟩
    · intro w hw
      exact g3 w (h3 w hw)
    · intro v hv hwalk
      rcases List.mem_cons.mp hv with hv | hv
    
      · subst hv
        rcases h4 hwalk with hc | hc
        · exact Or.inl (by rw [g2]; exact hc)
        · exact Or.inr (g3 _ hc)
      · exact g4 v hv hwalk

lemma relax_inv {a : Array_2D} {start goal u : Nat × Nat} {du : Nat}
    {s : SearchState} (h : MidInv a start goal u s) :
    Inv a start goal (relax a u du s) ∧ (relax a u du s).visited = s.visited := by
  unfold relax
  obtain ⟨hm, hvis, hcells, hcov⟩ :=
    relax_foldl (neighbors u) s (fun v hv => adjacentB_of_mem_neighbors hv) h
  refine ⟨⟨hm.vis_nodup, hm.vis_walk, hm.cells_nodup, hm.cells_walk, hm.disj,
    hm.start_mem, ?_, hm.goal_not_vis, hm.keys_sub, hm.start_not_key, hm.reach⟩, hvis⟩
  intro w hw v hadj hwalk
  by_cases hwu : w = u
  · subst hwu
    exact hcov v (mem_neighbors_of_adjacentB hadj) hwalk
  · exact hm.closure w hw hwu v hadj hwalk

lemma inv_pop_relax {a : Array_2D} {start goal : Nat × Nat} {s : SearchState}
    {u : Nat × Nat} {du : Nat} {rest : List ((Nat × Nat) × Nat)}
    (hinv : Inv a start goal s) (hpop : popMin s.frontier = some ((u, du), rest))
    (hne : u ≠ goal) :
    Inv a start goal (relax a u du (SearchState.mk rest (u :: s.visited) s.pred)) ∧
    (relax a u du (SearchState.mk rest (u :: s.visited) s.pred)).visited =
      u :: s.visited := by
  have hperm := popMin_perm hpop
  have hcellsperm : s.cells.Perm (u :: rest.map Prod.fst) := by
    unfold SearchState.cells
    simpa using hperm.map Prod.fst
  have humem : u ∈ s.cells := hcellsperm.mem_iff.mpr (by simp)
  have hnodup2 : (u :: rest.map Prod.fst).Nodup :=
    hcellsperm.nodup_iff.mp hinv.cells_nodup
  have hun : u ∉ rest.map Prod.fst := (List.nodup_cons.mp hnodup2).1
  have hrestnodup : (rest.map Prod.fst).Nodup := (List.nodup_cons.mp hnodup2).2
  have hmemtrans : ∀ x, x ∈ s.cells ↔ (x = u ∨ x ∈ rest.map Prod.fst) := by
    intro x
    rw [hcellsperm.mem_iff]
    simp
  have hmid : MidInv a start goal u (SearchState.mk rest (u :: s.visited) s.pred) := by
    refine ⟨?_, ?_, hrestnodup, ?_, ?_, ?_, ?_, by simp, ?_, ?_, hinv.start_not_key, ?_⟩
    · exact List.nodup_cons.mpr ⟨hinv.disj u humem, hinv.vis_nodup⟩
    · intro p hp
      rcases List.mem_cons.mp hp with hp | hp
      · subst hp
        exact hinv.cells_walk p humem
      · exact hinv.vis_walk p hp
    · intro p hp
      exact hinv.cells_walk p ((hmemtrans p).mpr (Or.inr hp))
    · intro p hp
      have hpc : p ∈ s.cells := (hmemtrans p).mpr (Or.inr hp)
      have hpu : p ≠ u := by
        intro he
        rw [he] at hp
        exact hun hp
      intro hmem
      rcases List.mem_cons.mp hmem with hmem | hmem
      · exact hpu hmem
      · exact hinv.disj p hpc hmem
    · rcases hinv.start_mem with hs | hs
      · exact Or.inl (List.mem_cons_of_mem _ hs)
      · rcases (hmemtrans start).mp hs with hs | hs
        · exact Or.inl (by rw [hs]; exact List.mem_cons_self _ _)
        · exact Or.inr hs
    · intro w hw hwu v hadj hwalk
      have hwv : w ∈ s.visited := by
        rcases List.mem_cons.mp hw with hw | hw
        · exact absurd hw hwu
        · exact hw
      rcases hinv.closure w hwv v hadj hwalk with h2 | h2
      · exact Or.inl (List.mem_cons_of_mem _ h2)
      · rcases (hmemtrans v).mp h2 with h2 | h2
        · exact Or.inl (by rw [h2]; exact List.mem_cons_self _ _)
        · exact Or.inr h2
    · intro hmem
      rcases List.mem_cons.mp hmem with hmem | hmem
      · exact hne hmem.symm
      · exact hinv.goal_not_vis hmem
    · intro k hk
      rcases hinv.keys_sub k hk with h2 | h2
      · exact Or.inl (List.mem_cons_of_mem _ h2)
      · rcases (hmemtrans k).mp h2 with h2 | h2
        · exact Or.inl (by rw [h2]; exact List.mem_cons_self _ _)
        · exact Or.inr h2
    · intro v hv
      have hv2 : v ∈ s.visited ∨ v ∈ s.cells := by
        rcases hv with hv | hv
        · rcases List.mem_cons.mp hv with hv | hv
          · exact Or.inr (by rw [hv]; exact humem)
          · exact Or.inl hv
        · exact Or.inr ((hmemtrans v).mpr (Or.inr hv))
      exact hinv.reach v hv2
  exact relax_inv hmid

lemma inv_visited_le {a : Array_2D} {start goal : Nat × Nat} {s : SearchState}
    (hinv : Inv a start goal s) : s.visited.length ≤ a.rows * a.cols :=
  length_le_area hinv.vis_nodup (fun p hp => walkableB_bounds (hinv.vis_walk p hp))

lemma djikstraLoop_ne_none {a : Array_2D} {start goal : Nat × Nat} :
    ∀ (fuel : Nat) (s : SearchState), Inv a start goal s →
      a.rows * a.cols + 1 ≤ fuel + s.visited.length →
      djikstraLoop a start goal fuel s ≠ none := by
  intro fuel
  induction fuel with
  | zero =>
    intro s hinv hf
    have hle := inv_visited_le hinv
    omega
  | succ f ih =>
    intro s hinv hf
    simp only [djikstraLoop]
    cases hpop : popMin s.frontier with
    | none => simp
    | some q =>
      obtain ⟨⟨u, du⟩, rest⟩ := q
      dsimp only
      by_cases hg : u = goal
      · rw [if_pos hg]
        simp
      · rw [if_neg hg]
        obtain ⟨hinv2, hvis2⟩ := inv_pop_relax hinv hpop hg
        apply ih _ hinv2
        rw [hvis2]
        simp only [List.length_cons]
        omega

lemma djikstraLoop_false_nil {a : Array_2D} {start goal : Nat × Nat} :
    ∀ (fuel : Nat) (s : SearchState) (p : List (Nat × Nat)),
      djikstraLoop a start goal fuel s = some (false, p) → p = [] := by
  intro fuel
  induction fuel with
  | zero =>
    intro s p h
    simp [djikstraLoop] at h
  | succ f ih =>
    intro s p h
    simp only [djikstraLoop] at h
    cases hpop : popMin s.frontier with
    | none =>
      rw [hpop] at h
      simp at h
      exact h
    | some q =>
      obtain ⟨⟨u, du⟩, rest⟩ := q
      rw [hpop] at h
      dsimp only at h
      by_cases hg : u = goal
      · rw [if_pos hg] at h
        simp at h
      · rw [if_neg hg] at h
        exact ih _ p h

lemma djikstraLoop_found {a : Array_2D} {start goal : Nat × Nat} :
    ∀ (fuel : Nat) (s : SearchState) (p : List (Nat × Nat)), Inv a start goal s →
      djikstraLoop a start goal fuel s = some (true, p) →
      IsPath a p start goal := by
  intro fuel
  induction fuel with
  | zero =>
    intro s p _ h
    simp [djikstraLoop] at h
  | succ f ih =>
    intro s p hinv h
    simp only [djikstraLoop] at h
    cases hpop : popMin s.frontier with
    | none =>
      rw [hpop] at h
      simp at h
    | some q =>
      obtain ⟨⟨u, du⟩, rest⟩ := q
      rw [hpop] at h
      dsimp only at h
      by_cases hg : u = goal
      · rw [if_pos hg] at h
        simp at h
        have hgmem : goal ∈ s.cells := by
          have hperm := (popMin_perm hpop).map Prod.fst
          unfold SearchState.cells
          rw [hperm.mem_iff]
          simp [hg]
        obtain ⟨l, hb, hpath, hnd⟩ := hinv.reach goal (Or.inr hgmem)
        have hlen := buildsPath_length_le hb hnd
        have hbuild :=
          buildPath_complete hb hinv.start_not_key (s.pred.length + 1) hlen
        rw [hg] at h
        rw [hbuild] at h
        simp at h
        rw [← h]
        exact hpath
      · rw [if_neg hg] at h
        exact ih _ p (inv_pop_relax hinv hpop hg).1 h

lemma isPath_closed {a : Array_2D} {V : List (Nat × Nat)}
    (hcl : ∀ u ∈ V, ∀ v, adjacentB u v = true → walkableB a v = true → v ∈ V) :
    ∀ (l : List (Nat × Nat)) (s g : Nat × Nat), IsPath a l s g → s ∈ V → g ∈ V := by
  intro l
  induction l with
  | nil =>
    intro s g h
    exact absurd rfl h.1
  | cons p t ih =>
    intro s g h hs
    cases t with
    | nil =>
      obtain ⟨_, hhead, hlast, _, _⟩ := h
      simp at hhead hlast
      rw [← hlast, hhead]
      exact hs
    | cons q t2 =>
      obtain ⟨hsp, hadj, htail⟩ := isPath_cons_cons h
      have hpV : p ∈ V := by
        rw [← hsp]
        exact hs
      have hq : q ∈ V := hcl p hpV q hadj (isPath_start_walkable htail)
      exact ih q g htail hq

lemma djikstraLoop_not_false {a : Array_2D} {start goal : Nat × Nat}
    (hconn : ∃ l, IsPath a l start goal) :
    ∀ (fuel : Nat) (s : SearchState) (p : List (Nat × Nat)), Inv a start goal s →
      djikstraLoop a start goal fuel s ≠ some (false, p) := by
  intro fuel
  induction fuel with
  | zero =>
    intro s p _
    simp [djikstraLoop]
  | succ f ih =>
    intro s p hinv
    simp only [djikstraLoop]
    cases hpop : popMin s.frontier with
    | none =>
      have hfront : s.frontier = [] := popMin_eq_none.mp hpop
      have hcellsnil : s.cells = [] := by
        unfold SearchState.cells
        rw [hfront]
        rfl
      have hstartv : start ∈ s.visited := by
        rcases hinv.start_mem with hs | hs
        · exact hs
        · rw [hcellsnil] at hs
          simp at hs
      have hclosed : ∀ u ∈ s.visited, ∀ v, adjacentB u v = true →
          walkableB a v = true → v ∈ s.visited := by
        intro u hu v hadj hw
        rcases hinv.closure u hu v hadj hw with h2 | h2
        · exact h2
        · rw [hcellsnil] at h2
          simp at h2
      obtain ⟨l, hl⟩ := hconn
      have hgv : goal ∈ s.visited := isPath_closed hclosed l start goal hl hstartv
      exact absurd hgv hinv.goal_not_vis
    | some q =>
      obtain ⟨⟨u, du⟩, rest⟩ := q
      dsimp only
      by_cases hg : u = goal
      · rw [if_pos hg]
        simp
      · rw [if_neg hg]
        exact ih _ p (inv_pop_relax hinv hpop hg).1

lemma inv_init {a : Array_2D} {start goal : Nat × Nat}
    (hws : walkableB a start = true) :
    Inv a start goal (SearchState.mk [(start, 0)] [] []) := by
  refine ⟨by simp, by simp, ?_, ?_, by simp, ?_, by simp, by simp, by simp, by simp, ?_⟩
  · unfold SearchState.cells
    simp
  · unfold SearchState.cells
    intro p hp
    simp at hp
    subst hp
    exact hws
  · unfold SearchState.cells
    exact Or.inr (by simp)
  · intro v hv
    have hvs : v = start := by
      rcases hv with hv | hv
      · simp at hv
      · unfold SearchState.cells at hv
        simpa using hv
    subst hvs
    exact ⟨[v], BuildsPath.base, isPath_singleton hws, by simp⟩

/-- C6: on a grid whose entrance and exit are connected through non-Wall
cells, the pathfinder reports success with a path that starts at the
entrance, ends at the exit, has length at least the Manhattan distance
between them, visits only walkable cells, and moves only between
grid-adjacent cells. -/
theorem find_path_connected (d : Dungeon) (e x : Nat × Nat)
    (he : d.entrance_pos = some e) (hx : d.exit_pos = some x)
    (hconn : ∃ l, IsPath d.tiles l e x) :
    (d.find_path_djikstra).1 = true ∧
    (d.find_path_djikstra).2.head? = some e ∧
    (d.find_path_djikstra).2.getLast? = some x ∧
    manhattan e x ≤ (d.find_path_djikstra).2.length ∧
    (∀ p ∈ (d.find_path_djikstra).2, walkableB d.tiles p = true) ∧
    (d.find_path_djikstra).2.Chain' (fun p q => adjacentB p q = true) := by
  obtain ⟨l0, hl0⟩ := hconn
  have hws := isPath_start_walkable hl0
  have hwg := isPath_goal_walkable hl0
  have hcore : ∃ p, find_path_core d.tiles e x = (true, p) ∧ IsPath d.tiles p e x := by
    unfold find_path_core
    rw [if_pos ⟨hws, hwg⟩]
    have hinv := @inv_init d.tiles e x hws
    cases hres : djikstraLoop d.tiles e x (d.tiles.rows * d.tiles.cols + 1)
        (SearchState.mk [(e, 0)] [] []) with
    | none =>
      exact absurd hres (djikstraLoop_ne_none _ _ hinv (by simp))
    | some r =>
      obtain ⟨b, p⟩ := r
      cases b with
      | false =>
        exact absurd hres (djikstraLoop_not_false ⟨l0, hl0⟩ _ _ _ hinv)
      | true =>
        exact ⟨p, rfl, djikstraLoop_found _ _ _ hinv hres⟩
  obtain ⟨p, hcore, hpath⟩ := hcore
  have hfp : d.find_path_djikstra = (true, p) := by
    unfold Dungeon.find_path_djikstra
    rw [he, hx]
    dsimp only
    exact hcore
  obtain ⟨hne, hhead, hlast, hwalk, hchain⟩ := hpath
  rw [hfp]
  refine ⟨rfl, hhead, hlast, ?_, hwalk, (chainAdjB_iff p).mp hchain⟩
  show manhattan e x ≤ p.length
  have hman := manhattan_le_of_chain p e x hhead hlast ((chainAdjB_iff p).mp hchain)
  omega

/-- C7: on a grid where no sequence of adjacent non-Wall cells connects the
entrance to the exit, the pathfinder reports failure with an empty path. -/
theorem find_path_disconnected (d : Dungeon) (e x : Nat × Nat)
    (he : d.entrance_pos = some e) (hx : d.exit_pos = some x)
    (hnc : ¬ ∃ l, IsPath d.tiles l e x) :
    d.find_path_djikstra = (false, []) := by
  unfold Dungeon.find_path_djikstra
  rw [he, hx]
  dsimp only
  unfold find_path_core
  by_cases hw : walkableB d.tiles e = true ∧ walkableB d.tiles x = true
  · rw [if_pos hw]
    have hinv := @inv_init d.tiles e x hw.1
    cases hres : djikstraLoop d.tiles e x (d.tiles.rows * d.tiles.cols + 1)
        (SearchState.mk [(e, 0)] [] []) with
    | none => rfl
    | some r =>
      obtain ⟨b, p⟩ := r
      cases b with
      | false =>
        have hp := djikstraLoop_false_nil _ _ _ hres
        dsimp only
        rw [hp]
      | true =>
        exact absurd (djikstraLoop_found _ _ _ hinv hres) (fun hp => hnc ⟨p, hp⟩)
  · rw [if_neg hw]

/-- Witness for C6 on `demoOpen`, whose entrance and exit are joined by the
explicit walkable path (0,0) → (1,0) → (1,1). -/
theorem find_path_connected_witness :
    (demoOpen.find_path_djikstra).1 = true ∧
    (demoOpen.find_path_djikstra).2.head? = some (0, 0) ∧
    (demoOpen.find_path_djikstra).2.getLast? = some (1, 1) ∧
    manhattan (0, 0) (1, 1) ≤ (demoOpen.find_path_djikstra).2.length ∧
    (∀ p ∈ (demoOpen.find_path_djikstra).2, walkableB demoOpen.tiles p = true) ∧
    (demoOpen.find_path_djikstra).2.Chain' (fun p q => adjacentB p q = true) :=
  find_path_connected demoOpen (0, 0) (1, 1) rfl rfl
    ⟨[(0, 0), (1, 0), (1, 1)], by decide⟩

/-- Witness for C7 on `demoBlocked`: column 2 is an unbroken wall, so no
walkable sequence joins (2,0) to (2,4) and the search reports failure with
an empty path. -/
theorem find_path_disconnected_witness :
    demoBlocked.find_path_djikstra = (false, []) :=
  find_path_disconnected demoBlocked (2, 0) (2, 4) rfl rfl
    (no_path_of_wall_column 2 (by decide) (by decide) (by decide))

end daedalus
